import Mathlib

/-!
# Verification of the pricing_oracle aggregation core

Shallow embedding of the aggregation-and-resolution engine of the
`pricing_oracle` repository:

* `src/aggregate.rs` — multi-source price aggregation with a 1% relative
  deviation validity check (`aggregate`, `aggregate_optional`);
* `src/forex_aggregate.rs` — per-symbol forex rate aggregation
  (`aggregate_forex_rates`, `normalize_foreign_per_usd`, `currency_name`);
* `src/main.rs` — the proxy-resolution loop (modelled as `proxyStep` /
  `resolveProxies`) together with `resolve_proxy_source` from
  `src/config.rs`.

Rust `f64` values are embedded as rationals `ℚ`; the raw forex rates, whose
handling inspects floating-point finiteness, are embedded as the inductive
type `Fp` (a finite rational, a NaN, or a signed infinity) so that the
`is_finite()` test of `normalize_foreign_per_usd` is faithfully represented.
Rust `HashMap`s that are only ever read through `get` are embedded as
association lists with first-match lookup, and the `entry().or_default()`
insertion pattern of `forex_aggregate.rs` is embedded by `pushRate`.
-/

/-- Embedding of `TokenData` from `src/types.rs` (one provider quote).
`f64` fields become `ℚ`, the `DateTime<Utc>` timestamp becomes `ℤ`. -/
structure TokenData where
  name : String
  chain : String
  contract : String
  price_usd : ℚ
  market_cap : Option ℚ
  volume_24h : Option ℚ
  liquidity : Option ℚ
  price_change_24h : Option ℚ
  source : String
  timestamp : ℤ
  deriving Repr, DecidableEq

/-- Embedding of `AggregatedResult` from `src/types.rs`. -/
structure AggregatedResult where
  unit_index : ℕ
  name : String
  contract : String
  avg_price_usd : ℚ
  volume_24h : Option ℚ
  price_change_24h : Option ℚ
  sources : List String
  valid : Bool
  per_source : List TokenData
  deriving Repr, DecidableEq

/-- `DEVIATION_THRESHOLD` from `src/aggregate.rs` (1%). -/
def DEVIATION_THRESHOLD : ℚ := 1 / 100

/-- Embedding of `aggregate_optional` from `src/aggregate.rs`:
average of the present values of an optional field, `none` when no quote
supplied the field. -/
def aggregate_optional (data : List TokenData) (f : TokenData → Option ℚ) :
    Option ℚ :=
  let vals : List ℚ := data.filterMap f
  if vals.isEmpty then none else some (vals.sum / (vals.length : ℚ))

/-- The arithmetic mean of the USD prices of a quote list,
`data.iter().map(|d| d.price_usd).sum::<f64>() / data.len()` in
`src/aggregate.rs`. -/
def priceMean (data : List TokenData) : ℚ :=
  (data.map (fun d => d.price_usd)).sum / (data.length : ℚ)

/-- Embedding of `aggregate` from `src/aggregate.rs`. -/
def aggregate (unit_index : ℕ) (data : List TokenData) : AggregatedResult :=
  let name := (data.head?.map (fun d => d.name)).getD ""
  let contract := (data.head?.map (fun d => d.contract)).getD ""
  let sources := data.map (fun d => d.source)
  if data.isEmpty then
    { unit_index := unit_index
      name := name
      contract := contract
      avg_price_usd := 0
      volume_24h := none
      price_change_24h := none
      sources := sources
      valid := false
      per_source := data }
  else
    let avg_price : ℚ := priceMean data
    let valid : Bool :=
      if data.length < 2 then
        true
      else
        data.all (fun d =>
          decide (|d.price_usd - avg_price| / avg_price ≤ DEVIATION_THRESHOLD))
    { unit_index := unit_index
      name := name
      contract := contract
      avg_price_usd := avg_price
      volume_24h := aggregate_optional data (fun d => d.volume_24h)
      price_change_24h := aggregate_optional data (fun d => d.price_change_24h)
      sources := sources
      valid := valid
      per_source := data }

/-- Embedding of the `f64` values arriving as raw forex rates: a finite
rational, a NaN, or a signed infinity.  `normalize_foreign_per_usd` in
`src/forex_aggregate.rs` inspects `is_finite()`, so the embedding keeps the
non-finite values distinguishable. -/
inductive Fp where
  | finite (q : ℚ)
  | nan
  | posInf
  | negInf
  deriving Repr, DecidableEq

/-- Embedding of `AggregatedForexRate` from `src/forex_aggregate.rs`. -/
structure AggregatedForexRate where
  symbol : String
  name : String
  foreign_per_usd : ℚ
  deriving Repr, DecidableEq

/-- `FOREX_DEVIATION_THRESHOLD` from `src/forex_aggregate.rs` (1%). -/
def FOREX_DEVIATION_THRESHOLD : ℚ := 1 / 100

/-- Embedding of `normalize_foreign_per_usd` from `src/forex_aggregate.rs`:
a raw rate is accepted only when it is finite and strictly positive. -/
def normalize_foreign_per_usd (rate : Fp) : Option ℚ :=
  match rate with
  | .finite q => if 0 < q then some q else none
  | .nan => none
  | .posInf => none
  | .negInf => none

/-- Embedding of `by_symbol.entry(symbol).or_default().push(v)` from
`src/forex_aggregate.rs`: append to the list stored under `symbol`,
creating the entry with the one-element list when it is absent. -/
def pushRate (m : List (String × List (String × ℚ))) (symbol : String)
    (v : String × ℚ) : List (String × List (String × ℚ)) :=
  match m with
  | [] => [(symbol, [v])]
  | (k, vs) :: rest =>
    if k = symbol then (k, vs ++ [v]) :: rest
    else (k, vs) :: pushRate rest symbol v

/-- One step of the inner loop of `aggregate_forex_rates`
(`src/forex_aggregate.rs`, the `for symbol in symbols` loop body): look the
symbol up in the source's map, normalize, and push when accepted. -/
def addSymbolRate (source_name : String) (rates : List (String × Fp))
    (m : List (String × List (String × ℚ))) (symbol : String) :
    List (String × List (String × ℚ)) :=
  match rates.lookup symbol with
  | none => m
  | some rate =>
    match normalize_foreign_per_usd rate with
    | none => m
    | some normalized => pushRate m symbol (source_name, normalized)

/-- The effect of one `(source_name, result)` pair of the outer loop of
`aggregate_forex_rates` on the `by_symbol` map: a failed source contributes
nothing, a successful one is scanned once per requested symbol. -/
def addSource (symbols : List String)
    (m : List (String × List (String × ℚ)))
    (sr : String × Except String (List (String × Fp))) :
    List (String × List (String × ℚ)) :=
  match sr.2 with
  | .error _ => m
  | .ok rates => symbols.foldl (addSymbolRate sr.1 rates) m

/-- The `by_symbol` map built by the first loop of `aggregate_forex_rates`
in `src/forex_aggregate.rs`. -/
def buildBySymbol (symbols : List String)
    (source_results : List (String × Except String (List (String × Fp)))) :
    List (String × List (String × ℚ)) :=
  source_results.foldl (addSource symbols) []

/-- Embedding of `currency_name` from `src/forex_aggregate.rs`. -/
def currency_name (symbol : String) : String :=
  match symbol with
  | "USD" => "US Dollar"
  | "EUR" => "Euro"
  | "GBP" => "British Pound"
  | "JPY" => "Japanese Yen"
  | "CHF" => "Swiss Franc"
  | "CAD" => "Canadian Dollar"
  | "AUD" => "Australian Dollar"
  | "NZD" => "New Zealand Dollar"
  | "SEK" => "Swedish Krona"
  | "NOK" => "Norwegian Krone"
  | "DKK" => "Danish Krone"
  | "PLN" => "Polish Zloty"
  | "CZK" => "Czech Koruna"
  | "HUF" => "Hungarian Forint"
  | "RON" => "Romanian Leu"
  | "TRY" => "Turkish Lira"
  | "RUB" => "Russian Ruble"
  | "UAH" => "Ukrainian Hryvnia"
  | "ILS" => "Israeli New Shekel"
  | "AED" => "UAE Dirham"
  | "SAR" => "Saudi Riyal"
  | "QAR" => "Qatari Riyal"
  | "KWD" => "Kuwaiti Dinar"
  | "BHD" => "Bahraini Dinar"
  | "OMR" => "Omani Rial"
  | "ZAR" => "South African Rand"
  | "EGP" => "Egyptian Pound"
  | "NGN" => "Nigerian Naira"
  | "KES" => "Kenyan Shilling"
  | "INR" => "Indian Rupee"
  | "PKR" => "Pakistani Rupee"
  | "BDT" => "Bangladeshi Taka"
  | "CNY" => "Chinese Yuan"
  | "HKD" => "Hong Kong Dollar"
  | "SGD" => "Singapore Dollar"
  | "KRW" => "South Korean Won"
  | "TWD" => "New Taiwan Dollar"
  | "THB" => "Thai Baht"
  | "MYR" => "Malaysian Ringgit"
  | "IDR" => "Indonesian Rupiah"
  | "PHP" => "Philippine Peso"
  | "VND" => "Vietnamese Dong"
  | "MXN" => "Mexican Peso"
  | "BRL" => "Brazilian Real"
  | "ARS" => "Argentine Peso"
  | "CLP" => "Chilean Peso"
  | "COP" => "Colombian Peso"
  | "PEN" => "Peruvian Sol"
  | "UYU" => "Uruguayan Peso"
  | _ => "Unknown Currency"

/-- Embedding of `aggregate_forex_rates` from `src/forex_aggregate.rs`.
The deviation warnings of the second loop are log-only and do not influence
the returned value, so they have no counterpart here. -/
def aggregate_forex_rates (symbols : List String)
    (source_results : List (String × Except String (List (String × Fp)))) :
    List AggregatedForexRate :=
  let by_symbol := buildBySymbol symbols source_results
  symbols.filterMap (fun symbol =>
    match by_symbol.lookup symbol with
    | none => none
    | some values =>
      if values.isEmpty then none
      else
        some { symbol := symbol
               name := currency_name symbol
               foreign_per_usd :=
                 (values.map (fun v => v.2)).sum / (values.length : ℚ) })

/-- Embedding of `PriceProxy` from `src/config.rs`. -/
structure PriceProxy where
  use_unit : Option ℕ
  use_reference : Option String
  deriving Repr, DecidableEq

/-- Embedding of `UnitConfig` from `src/config.rs` (the fields the proxy
loop reads). -/
structure UnitConfig where
  unit_index : ℕ
  name : String
  chain : String
  contract : String
  decimals : Option ℕ
  price_proxy : Option PriceProxy
  deriving Repr, DecidableEq

/-- Embedding of `ProxySource` from `src/config.rs`. -/
inductive ProxySource where
  | unit (u : ℕ)
  | reference (id : String)
  deriving Repr, DecidableEq

/-- Embedding of `Config::resolve_proxy_source` from `src/config.rs`. -/
def resolve_proxy_source (unit_index : ℕ) (proxy : PriceProxy) :
    Except String ProxySource :=
  match proxy.use_unit with
  | some use_unit =>
    if use_unit = unit_index then
      .error "price_proxy use_unit cannot point to self"
    else
      .ok (.unit use_unit)
  | none =>
    match proxy.use_reference with
    | some id => .ok (.reference id)
    | none => .error "price_proxy must have use_unit or use_reference"

/-- The target lookup of the proxy loop in `src/main.rs`: a unit index is
searched in the accumulated aggregates
(`aggregated.iter().find(|a| a.unit_index == *use_unit).cloned()`), a
reference id in the `reference_prices` map. -/
def lookupProxySource (acc : List AggregatedResult)
    (refs : List (String × AggregatedResult)) :
    ProxySource → Option AggregatedResult
  | .unit u => acc.find? (fun a => a.unit_index == u)
  | .reference id => refs.lookup id

/-- The body of the proxy loop of `src/main.rs` for one proxy unit: resolve
the proxy's source (the `?` on `resolve_proxy_source` aborts the run with
`.error`, and the `unwrap()` on a missing `price_proxy` is embedded the same
way), look the target up, and if found append the relabelled clone to the
accumulated aggregates; a missing target only logs. -/
def proxyStep (refs : List (String × AggregatedResult))
    (acc : List AggregatedResult) (proxy_unit : UnitConfig) :
    Except String (List AggregatedResult) :=
  match proxy_unit.price_proxy with
  | none => .error "price_proxy missing"
  | some proxy_cfg =>
    match resolve_proxy_source proxy_unit.unit_index proxy_cfg with
    | .error e => .error e
    | .ok source =>
      match lookupProxySource acc refs source with
      | some source_agg =>
        .ok (acc ++
          [{ source_agg with
              unit_index := proxy_unit.unit_index
              name := proxy_unit.name
              contract := proxy_unit.contract
              sources := ["proxy"] }])
      | none => .ok acc

/-- The whole proxy loop of `src/main.rs` (`for proxy_unit in &proxy_units`):
a single pass in input order, each resolved proxy being appended to the
accumulated aggregates before the next proxy is evaluated. -/
def resolveProxies (refs : List (String × AggregatedResult))
    (proxy_units : List UnitConfig) (acc : List AggregatedResult) :
    Except String (List AggregatedResult) :=
  match proxy_units with
  | [] => .ok acc
  | p :: rest =>
    match proxyStep refs acc p with
    | .error e => .error e
    | .ok acc2 => resolveProxies refs rest acc2

/-- Concrete quote builder used by the witness theorems. -/
def mkQuote (src : String) (p : ℚ) (vol pc : Option ℚ) : TokenData :=
  { name := "Token"
    chain := "chain"
    contract := "0x0"
    price_usd := p
    market_cap := none
    volume_24h := vol
    liquidity := none
    price_change_24h := pc
    source := src
    timestamp := 0 }

/-- Concrete aggregate used by the witness theorems: an already-aggregated
real unit with index 1 whose cross-check failed (`valid = false`). -/
def sampleAgg : AggregatedResult :=
  { unit_index := 1
    name := "Real"
    contract := "0xreal"
    avg_price_usd := 5
    volume_24h := some 7
    price_change_24h := none
    sources := ["cg", "cmc"]
    valid := false
    per_source := [] }

/-- Concrete proxy unit used by the witness theorems: unit 3 proxying
unit 1. -/
def sampleProxyUnit : UnitConfig :=
  { unit_index := 3
    name := "Proxy"
    chain := "chain"
    contract := "0xproxy"
    decimals := none
    price_proxy := some { use_unit := some 1, use_reference := none } }

/-- Concrete proxy unit used by the witness theorems: unit 4 proxying the
proxy unit 3. -/
def sampleChainedProxyUnit : UnitConfig :=
  { unit_index := 4
    name := "Chained"
    chain := "chain"
    contract := "0xchained"
    decimals := none
    price_proxy := some { use_unit := some 3, use_reference := none } }

/-- Concrete proxy unit used by the witness theorems: unit 5 proxying the
absent unit 9. -/
def sampleDanglingProxyUnit : UnitConfig :=
  { unit_index := 5
    name := "Dangling"
    chain := "chain"
    contract := "0xdangling"
    decimals := none
    price_proxy := some { use_unit := some 9, use_reference := none } }

/-- Modelled from the spec: the `(source_name, normalized_rate)` pair a
single source contributes for one symbol — present exactly when the source
succeeded, reported the symbol, and the raw rate is finite and strictly
positive. -/
def sourcePush (symbol : String)
    (sr : String × Except String (List (String × Fp))) :
    Option (String × ℚ) :=
  match sr.2 with
  | .error _ => none
  | .ok rates =>
    match rates.lookup symbol with
    | some (.finite q) => if 0 < q then some (sr.1, q) else none
    | some .nan => none
    | some .posInf => none
    | some .negInf => none
    | none => none

/-- Modelled from the spec: all accepted `(source_name, normalized_rate)`
pairs for one symbol, in source order. -/
def acceptedRates
    (source_results : List (String × Except String (List (String × Fp))))
    (symbol : String) : List (String × ℚ) :=
  source_results.filterMap (sourcePush symbol)

/-- Combination of an optional stored per-symbol list with a batch of newly
pushed values: appended when an entry exists, a fresh entry when values
arrive for an absent one, absent when nothing arrives. -/
def joinOpt (o : Option (List (String × ℚ))) (l : List (String × ℚ)) :
    Option (List (String × ℚ)) :=
  match o with
  | some vs => some (vs ++ l)
  | none => if l.isEmpty then none else some l

/-- Concrete per-source forex results used by the witness theorems: source
`s1` reports EUR and JPY, source `s2` failed outright, source `s3` reports a
negative EUR rate and a NaN GBP rate (both rejected by normalization). -/
def forexSrs : List (String × Except String (List (String × Fp))) :=
  [("s1", .ok [("EUR", .finite 2), ("JPY", .finite 150)]),
   ("s2", .error "boom"),
   ("s3", .ok [("EUR", .finite (-1)), ("GBP", .nan)])]

theorem aggregate_avg_ne_nil (u : ℕ) (data : List TokenData) (h : data ≠ []) :
    (aggregate u data).avg_price_usd = priceMean data := by
  cases data with
  | nil => exact absurd rfl h
  | cons d t => rfl

theorem aggregate_valid_ne_nil (u : ℕ) (data : List TokenData) (h : data ≠ []) :
    (aggregate u data).valid =
      if data.length < 2 then true
      else
        data.all (fun d =>
          decide (|d.price_usd - priceMean data| / priceMean data ≤
            DEVIATION_THRESHOLD)) := by
  cases data with
  | nil => exact absurd rfl h
  | cons d t => rfl

/-- Claim C1: with exactly one quote the result is valid unconditionally;
with two or more quotes it is valid iff every quote's relative deviation
from the arithmetic mean is at most the 1% threshold. -/
theorem aggregate_valid_rule (u : ℕ) (data : List TokenData) :
    (data.length = 1 → (aggregate u data).valid = true) ∧
    (2 ≤ data.length →
      ((aggregate u data).valid = true ↔
        ∀ d ∈ data,
          |d.price_usd - priceMean data| / priceMean data ≤
            DEVIATION_THRESHOLD)) := by
  constructor
  · intro h1
    have hne : data ≠ [] := by
      intro he
      rw [he] at h1
      simp at h1
    rw [aggregate_valid_ne_nil u data hne, if_pos (by omega)]
  · intro h2
    have hne : data ≠ [] := by
      intro he
      rw [he] at h2
      simp at h2
    rw [aggregate_valid_ne_nil u data hne, if_neg (by omega)]
    simp [List.all_eq_true]

/-- Witness for C1: a single quote is valid, and a two-quote list whose
prices agree within 1% is valid via the deviation criterion. -/
theorem aggregate_valid_rule_witness :
    (aggregate 7 [mkQuote "a" 100 none none]).valid = true ∧
    (aggregate 0 [mkQuote "a" 100 none none,
      mkQuote "b" 100 none none]).valid = true :=
  ⟨(aggregate_valid_rule 7 [mkQuote "a" 100 none none]).1 rfl,
   ((aggregate_valid_rule 0 [mkQuote "a" 100 none none,
      mkQuote "b" 100 none none]).2 (by decide)).mpr
     (by norm_num [List.forall_mem_cons, priceMean, mkQuote,
       DEVIATION_THRESHOLD])⟩

/-- Claim C4: on the empty quote list `aggregate` returns the "no data"
sentinel: zero price, invalid, empty source list, empty name and contract —
never an error. -/
theorem aggregate_empty (unit_index : ℕ) :
    aggregate unit_index [] =
      { unit_index := unit_index
        name := ""
        contract := ""
        avg_price_usd := 0
        volume_24h := none
        price_change_24h := none
        sources := []
        valid := false
        per_source := [] } := rfl

/-- Claim C5: a non-empty quote list in which every quote carries the same
price `p` aggregates to a valid result whose average price is exactly `p`. -/
theorem aggregate_identical_prices (u : ℕ) (p : ℚ) (data : List TokenData)
    (hne : data ≠ []) (hall : ∀ d ∈ data, d.price_usd = p) :
    (aggregate u data).valid = true ∧ (aggregate u data).avg_price_usd = p := by
  have hmap : data.map (fun d => d.price_usd) = List.replicate data.length p := by
    have hmem : ∀ b ∈ data.map (fun d => d.price_usd), b = p := by
      intro b hb
      obtain ⟨d, hd, rfl⟩ := List.mem_map.mp hb
      exact hall d hd
    simpa using List.eq_replicate_of_mem hmem
  have hlen : (data.length : ℚ) ≠ 0 := by
    have hl : data.length ≠ 0 := by
      cases data with
      | nil => exact absurd rfl hne
      | cons d t => simp
    exact_mod_cast hl
  have hmean : priceMean data = p := by
    unfold priceMean
    rw [hmap, List.sum_replicate, nsmul_eq_mul]
    exact mul_div_cancel_left₀ p hlen
  refine ⟨?_, ?_⟩
  · rw [aggregate_valid_ne_nil u data hne]
    by_cases hlt : data.length < 2
    · rw [if_pos hlt]
    · rw [if_neg hlt, List.all_eq_true]
      intro d hd
      rw [decide_eq_true_eq, hall d hd, hmean]
      simp [DEVIATION_THRESHOLD]
  · rw [aggregate_avg_ne_nil u data hne, hmean]

/-- Witness for C5: two quotes at price 42 aggregate to a valid result with
average exactly 42. -/
theorem aggregate_identical_prices_witness :
    (aggregate 1 [mkQuote "a" 42 none none, mkQuote "b" 42 none none]).valid
        = true ∧
    (aggregate 1 [mkQuote "a" 42 none none,
        mkQuote "b" 42 none none]).avg_price_usd = 42 :=
  aggregate_identical_prices 1 42
    [mkQuote "a" 42 none none, mkQuote "b" 42 none none]
    (by decide) (by decide)

/-- Claim C9: when the arithmetic mean of at least two quotes is strictly
negative, the deviation check divides by the signed mean, every quotient is
nonpositive and hence below the threshold, so the unit is reported valid no
matter how far the prices spread. -/
theorem aggregate_negative_mean_valid (u : ℕ) (data : List TokenData)
    (hlen : 2 ≤ data.length) (hneg : priceMean data < 0) :
    (aggregate u data).valid = true := by
  have hne : data ≠ [] := by
    intro he
    rw [he] at hlen
    simp at hlen
  rw [aggregate_valid_ne_nil u data hne, if_neg (by omega), List.all_eq_true]
  intro d hd
  rw [decide_eq_true_eq]
  have h1 : |d.price_usd - priceMean data| / priceMean data ≤ 0 :=
    div_nonpos_of_nonneg_of_nonpos (abs_nonneg _) (le_of_lt hneg)
  exact le_trans h1 (by norm_num [DEVIATION_THRESHOLD])

/-- Witness for C9: prices −1 and −3 differ by 100% of their mean −2, yet
the unit is reported valid. -/
theorem aggregate_negative_mean_valid_witness :
    (aggregate 2 [mkQuote "a" (-1) none none,
      mkQuote "b" (-3) none none]).valid = true :=
  aggregate_negative_mean_valid 2
    [mkQuote "a" (-1) none none, mkQuote "b" (-3) none none]
    (by decide) (by norm_num [priceMean, mkQuote])

/-- Claim C8: each optional field of the aggregate is the mean of the values
of exactly the quotes that supplied that field and is absent when none did,
while the price average is taken over all quotes regardless of which
optional fields they supplied. -/
theorem aggregate_optional_fields (u : ℕ) (data : List TokenData)
    (hne : data ≠ []) :
    (aggregate u data).volume_24h =
      (if (data.filterMap (fun d => d.volume_24h)).isEmpty then none
       else some ((data.filterMap (fun d => d.volume_24h)).sum /
         ((data.filterMap (fun d => d.volume_24h)).length : ℚ))) ∧
    (aggregate u data).price_change_24h =
      (if (data.filterMap (fun d => d.price_change_24h)).isEmpty then none
       else some ((data.filterMap (fun d => d.price_change_24h)).sum /
         ((data.filterMap (fun d => d.price_change_24h)).length : ℚ))) ∧
    (aggregate u data).avg_price_usd = priceMean data := by
  cases data with
  | nil => exact absurd rfl hne
  | cons d t => exact ⟨rfl, rfl, rfl⟩

/-- Witness for C8: volumes `[10, absent, 20]` average to 15, the absent
volume neither blocks the price average nor the percent-change average. -/
theorem aggregate_optional_fields_witness :
    ((aggregate 3 [mkQuote "a" 1 (some 10) (some 2), mkQuote "b" 1 none none,
        mkQuote "c" 1 (some 20) none]).volume_24h =
      (if (([mkQuote "a" 1 (some 10) (some 2), mkQuote "b" 1 none none,
          mkQuote "c" 1 (some 20) none]).filterMap
            (fun d => d.volume_24h)).isEmpty then none
       else some ((([mkQuote "a" 1 (some 10) (some 2),
          mkQuote "b" 1 none none,
          mkQuote "c" 1 (some 20) none]).filterMap
            (fun d => d.volume_24h)).sum /
         ((([mkQuote "a" 1 (some 10) (some 2), mkQuote "b" 1 none none,
          mkQuote "c" 1 (some 20) none]).filterMap
            (fun d => d.volume_24h)).length : ℚ)))) ∧
    (aggregate 3 [mkQuote "a" 1 (some 10) (some 2), mkQuote "b" 1 none none,
        mkQuote "c" 1 (some 20) none]).volume_24h = some 15 ∧
    (aggregate 3 [mkQuote "a" 1 (some 10) (some 2), mkQuote "b" 1 none none,
        mkQuote "c" 1 (some 20) none]).price_change_24h = some 2 ∧
    (aggregate 3 [mkQuote "a" 1 (some 10) (some 2), mkQuote "b" 1 none none,
        mkQuote "c" 1 (some 20) none]).avg_price_usd = 1 := by
  refine ⟨(aggregate_optional_fields 3 _ (by decide)).1, ?_, ?_, ?_⟩
  · norm_num [aggregate, aggregate_optional, mkQuote, List.filterMap_cons]
  · norm_num [aggregate, aggregate_optional, mkQuote, List.filterMap_cons]
  · norm_num [aggregate, priceMean, mkQuote]

theorem find?_append_of_none {α : Type} (p : α → Bool) (l1 l2 : List α)
    (h : l1.find? p = none) : (l1 ++ l2).find? p = l2.find? p := by
  induction l1 with
  | nil => rfl
  | cons a t ih =>
    rw [List.find?_cons] at h
    cases hpa : p a with
    | true => rw [hpa] at h; exact absurd h (by simp)
    | false =>
      rw [hpa] at h
      rw [List.cons_append, List.find?_cons, hpa]
      exact ih h

theorem proxy_step_found_aux (refs : List (String × AggregatedResult))
    (acc : List AggregatedResult) (pu : UnitConfig) (pcfg : PriceProxy)
    (src : ProxySource) (sa : AggregatedResult)
    (hp : pu.price_proxy = some pcfg)
    (hs : resolve_proxy_source pu.unit_index pcfg = .ok src)
    (hl : lookupProxySource acc refs src = some sa) :
    proxyStep refs acc pu =
      .ok (acc ++
        [{ sa with
            unit_index := pu.unit_index
            name := pu.name
            contract := pu.contract
            sources := ["proxy"] }]) := by
  simp [proxyStep, hp, hs, hl]

/-- Claim C2: when the proxy's target is found, the proxy loop appends to
the accumulated aggregates exactly a clone of the target's aggregate in
which only the unit index, name and contract are replaced by the proxy
unit's own identity and the source list becomes the single entry "proxy";
every other field (average price, volume, percent change, validity,
per-source quotes) is inherited unchanged. -/
theorem proxy_resolution_found (refs : List (String × AggregatedResult))
    (acc : List AggregatedResult) (pu : UnitConfig) (pcfg : PriceProxy)
    (src : ProxySource) (sa : AggregatedResult)
    (hp : pu.price_proxy = some pcfg)
    (hs : resolve_proxy_source pu.unit_index pcfg = .ok src)
    (hl : lookupProxySource acc refs src = some sa) :
    proxyStep refs acc pu =
      .ok (acc ++
        [{ sa with
            unit_index := pu.unit_index
            name := pu.name
            contract := pu.contract
            sources := ["proxy"] }]) := by
  simp [proxyStep, hp, hs, hl]

/-- Witness for C2: proxy unit 3 resolving from the (invalid) aggregate of
unit 1 inherits the price, the volume and the `false` validity flag, with
its own identity and the "proxy" source list. -/
theorem proxy_resolution_found_witness :
    proxyStep [] [sampleAgg] sampleProxyUnit =
      .ok ([sampleAgg] ++
        [{ sampleAgg with
            unit_index := 3
            name := "Proxy"
            contract := "0xproxy"
            sources := ["proxy"] }]) :=
  proxy_resolution_found [] [sampleAgg] sampleProxyUnit
    { use_unit := some 1, use_reference := none } (.unit 1) sampleAgg
    rfl rfl rfl

/-- Claim C6: when the proxy's target is not found, the proxy loop leaves
the accumulated aggregates exactly as they were (no result for the proxy,
no other unit altered) and does not fail the run. -/
theorem proxy_resolution_not_found (refs : List (String × AggregatedResult))
    (acc : List AggregatedResult) (pu : UnitConfig) (pcfg : PriceProxy)
    (src : ProxySource)
    (hp : pu.price_proxy = some pcfg)
    (hs : resolve_proxy_source pu.unit_index pcfg = .ok src)
    (hl : lookupProxySource acc refs src = none) :
    proxyStep refs acc pu = .ok acc := by
  simp [proxyStep, hp, hs, hl]

/-- Witness for C6: proxy unit 5 targets the absent unit 9; the accumulated
aggregates are returned unchanged and no error is raised. -/
theorem proxy_resolution_not_found_witness :
    proxyStep [] [sampleAgg] sampleDanglingProxyUnit = .ok [sampleAgg] :=
  proxy_resolution_not_found [] [sampleAgg] sampleDanglingProxyUnit
    { use_unit := some 9, use_reference := none } (.unit 9)
    rfl rfl rfl

/-- Claim C7: proxies are resolved in one pass in input order, each
resolved proxy being appended before the next proxy is evaluated: a proxy
`p2` targeting the proxy `p1` resolves when it appears after `p1` in the
list, and produces nothing when it appears before `p1` — no reordering or
cycle detection takes place. -/
theorem proxy_chain_order (refs : List (String × AggregatedResult))
    (acc : List AggregatedResult) (p1 p2 : UnitConfig)
    (pc1 pc2 : PriceProxy) (t : ℕ) (sa : AggregatedResult)
    (hp1 : p1.price_proxy = some pc1)
    (hs1 : resolve_proxy_source p1.unit_index pc1 = .ok (.unit t))
    (hl1 : acc.find? (fun a => a.unit_index == t) = some sa)
    (hp2 : p2.price_proxy = some pc2)
    (hs2 : resolve_proxy_source p2.unit_index pc2 = .ok (.unit p1.unit_index))
    (hmiss : acc.find? (fun a => a.unit_index == p1.unit_index) = none) :
    resolveProxies refs [p1, p2] acc =
      .ok ((acc ++
        [{ sa with
            unit_index := p1.unit_index
            name := p1.name
            contract := p1.contract
            sources := ["proxy"] }]) ++
        [{ sa with
            unit_index := p2.unit_index
            name := p2.name
            contract := p2.contract
            sources := ["proxy"] }]) ∧
    resolveProxies refs [p2, p1] acc =
      .ok (acc ++
        [{ sa with
            unit_index := p1.unit_index
            name := p1.name
            contract := p1.contract
            sources := ["proxy"] }]) := by
  have hstep1 : proxyStep refs acc p1 =
      .ok (acc ++
        [{ sa with
            unit_index := p1.unit_index
            name := p1.name
            contract := p1.contract
            sources := ["proxy"] }]) := by
    simp [proxyStep, hp1, hs1, lookupProxySource, hl1]
  have hstep2miss : proxyStep refs acc p2 = .ok acc := by
    simp [proxyStep, hp2, hs2, lookupProxySource, hmiss]
  constructor
  · have hfind : lookupProxySource
        (acc ++
          [{ sa with
              unit_index := p1.unit_index
              name := p1.name
              contract := p1.contract
              sources := ["proxy"] }]) refs (.unit p1.unit_index) =
        some { sa with
            unit_index := p1.unit_index
            name := p1.name
            contract := p1.contract
            sources := ["proxy"] } := by
      show (acc ++
          [{ sa with
              unit_index := p1.unit_index
              name := p1.name
              contract := p1.contract
              sources := ["proxy"] }]).find?
            (fun a => a.unit_index == p1.unit_index) =
          some { sa with
              unit_index := p1.unit_index
              name := p1.name
              contract := p1.contract
              sources := ["proxy"] }
      rw [find?_append_of_none _ _ _ hmiss]
      simp [List.find?_cons]
    have hstep2 := proxy_step_found_aux refs
      (acc ++
        [{ sa with
            unit_index := p1.unit_index
            name := p1.name
            contract := p1.contract
            sources := ["proxy"] }]) p2 pc2 (.unit p1.unit_index)
      { sa with
          unit_index := p1.unit_index
          name := p1.name
          contract := p1.contract
          sources := ["proxy"] } hp2 hs2 hfind
    simp [resolveProxies, hstep1, hstep2]
  · simp [resolveProxies, hstep2miss, hstep1]

/-- Witness for C7: with unit 1 aggregated, proxy 3 (of unit 1) and proxy 4
(of proxy 3) both resolve in the order `[3, 4]`, while in the order `[4, 3]`
only proxy 3 resolves and proxy 4 produces nothing. -/
theorem proxy_chain_order_witness :
    resolveProxies [] [sampleProxyUnit, sampleChainedProxyUnit] [sampleAgg] =
      .ok (([sampleAgg] ++
        [{ sampleAgg with
            unit_index := 3
            name := "Proxy"
            contract := "0xproxy"
            sources := ["proxy"] }]) ++
        [{ sampleAgg with
            unit_index := 4
            name := "Chained"
            contract := "0xchained"
            sources := ["proxy"] }]) ∧
    resolveProxies [] [sampleChainedProxyUnit, sampleProxyUnit] [sampleAgg] =
      .ok ([sampleAgg] ++
        [{ sampleAgg with
            unit_index := 3
            name := "Proxy"
            contract := "0xproxy"
            sources := ["proxy"] }]) :=
  proxy_chain_order [] [sampleAgg] sampleProxyUnit sampleChainedProxyUnit
    { use_unit := some 1, use_reference := none }
    { use_unit := some 3, use_reference := none }
    1 sampleAgg rfl rfl rfl rfl rfl rfl

theorem joinOpt_nil (o : Option (List (String × ℚ))) : joinOpt o [] = o := by
  cases o <;> simp [joinOpt]

theorem joinOpt_append (o : Option (List (String × ℚ)))
    (l1 l2 : List (String × ℚ)) :
    joinOpt (joinOpt o l1) l2 = joinOpt o (l1 ++ l2) := by
  cases o with
  | some vs => simp [joinOpt]
  | none =>
    cases l1 with
    | nil => simp [joinOpt]
    | cons v t => simp [joinOpt]

theorem lookup_cons_self_aux {β : Type} (k : String) (b : β)
    (l : List (String × β)) : ((k, b) :: l).lookup k = some b := by
  simp [List.lookup]

theorem lookup_cons_ne_aux {β : Type} (k a : String) (b : β)
    (l : List (String × β)) (h : k ≠ a) :
    ((k, b) :: l).lookup a = l.lookup a := by
  have hb : (a == k) = false := beq_eq_false_iff_ne.mpr (Ne.symm h)
  simp [List.lookup, hb]

theorem lookup_pushRate_self (m : List (String × List (String × ℚ)))
    (symbol : String) (v : String × ℚ) :
    (pushRate m symbol v).lookup symbol =
      some (((m.lookup symbol).getD []) ++ [v]) := by
  induction m with
  | nil => simp [pushRate, List.lookup]
  | cons p rest ih =>
    obtain ⟨k, vs⟩ := p
    by_cases hk : k = symbol
    · subst hk
      simp [pushRate, lookup_cons_self_aux]
    · simp [pushRate, hk, lookup_cons_ne_aux _ _ _ _ hk, ih]

theorem lookup_pushRate_ne (m : List (String × List (String × ℚ)))
    (symbol a : String) (v : String × ℚ) (hne : a ≠ symbol) :
    (pushRate m symbol v).lookup a = m.lookup a := by
  induction m with
  | nil =>
    show ([(symbol, [v])] : List _).lookup a = ([] : List _).lookup a
    rw [lookup_cons_ne_aux _ _ _ _ (Ne.symm hne)]
  | cons p rest ih =>
    obtain ⟨k, vs⟩ := p
    by_cases hk : k = symbol
    · subst hk
      have hka : k ≠ a := fun h => hne h.symm
      simp [pushRate, lookup_cons_ne_aux _ _ _ _ hka]
    · by_cases hka : k = a
      · subst hka
        simp [pushRate, hk, lookup_cons_self_aux]
      · simp [pushRate, hk, lookup_cons_ne_aux _ _ _ _ hka, ih]

theorem lookup_addSymbolRate_ne (nm : String) (rates : List (String × Fp))
    (m : List (String × List (String × ℚ))) (s sym : String)
    (hne : sym ≠ s) :
    (addSymbolRate nm rates m s).lookup sym = m.lookup sym := by
  unfold addSymbolRate
  cases h : rates.lookup s with
  | none => rfl
  | some rate =>
    cases hn : normalize_foreign_per_usd rate with
    | none => simp [hn]
    | some n => simp [hn, lookup_pushRate_ne m s sym (nm, n) hne]

theorem lookup_inner_not_mem (nm : String) (rates : List (String × Fp))
    (syms : List String) (sym : String) (h : sym ∉ syms) :
    ∀ m, (syms.foldl (addSymbolRate nm rates) m).lookup sym =
      m.lookup sym := by
  induction syms with
  | nil => intro m; rfl
  | cons s rest ih =>
    intro m
    have h1 : sym ≠ s := fun he => h (he ▸ List.mem_cons_self s rest)
    have h2 : sym ∉ rest := fun hm => h (List.mem_cons_of_mem s hm)
    rw [List.foldl_cons, ih h2, lookup_addSymbolRate_ne nm rates m s sym h1]

theorem lookup_inner_mem (nm : String) (rates : List (String × Fp))
    (syms : List String) (sym : String) :
    ∀ m, syms.Nodup → sym ∈ syms →
      (syms.foldl (addSymbolRate nm rates) m).lookup sym =
        joinOpt (m.lookup sym) (sourcePush sym (nm, .ok rates)).toList := by
  induction syms with
  | nil => intro m _ hmem; cases hmem
  | cons s rest ih =>
    intro m hnd hmem
    rw [List.foldl_cons]
    by_cases hs : sym = s
    · subst hs
      have hnotin : sym ∉ rest := (List.nodup_cons.mp hnd).1
      rw [lookup_inner_not_mem nm rates rest sym hnotin]
      unfold addSymbolRate sourcePush
      cases h : rates.lookup sym with
      | none => simp [h, joinOpt_nil]
      | some rate =>
        cases rate with
        | finite q =>
          by_cases hq : 0 < q
          · simp only [h, hq, normalize_foreign_per_usd, if_pos hq,
              lookup_pushRate_self, Option.toList_some]
            cases hm : m.lookup sym <;>
              simp [joinOpt, lookup_pushRate_self, hm]
          · simp [h, hq, normalize_foreign_per_usd, joinOpt_nil]
        | nan => simp [h, normalize_foreign_per_usd, joinOpt_nil]
        | posInf => simp [h, normalize_foreign_per_usd, joinOpt_nil]
        | negInf => simp [h, normalize_foreign_per_usd, joinOpt_nil]
    · have hmem2 : sym ∈ rest := by
        rcases List.mem_cons.mp hmem with h | h
        · exact absurd h hs
        · exact h
      have hnd2 : rest.Nodup := (List.nodup_cons.mp hnd).2
      rw [ih (addSymbolRate nm rates m s) hnd2 hmem2,
        lookup_addSymbolRate_ne nm rates m s sym hs]

theorem lookup_buildBySymbol_aux (symbols : List String) (sym : String)
    (hnd : symbols.Nodup) (hmem : sym ∈ symbols)
    (srs : List (String × Except String (List (String × Fp)))) :
    ∀ m, (srs.foldl (addSource symbols) m).lookup sym =
      joinOpt (m.lookup sym) (acceptedRates srs sym) := by
  induction srs with
  | nil => intro m; simp [acceptedRates, joinOpt_nil]
  | cons sr rest ih =>
    intro m
    rw [List.foldl_cons, ih (addSource symbols m sr)]
    have hstep : (addSource symbols m sr).lookup sym =
        joinOpt (m.lookup sym) (sourcePush sym sr).toList := by
      obtain ⟨nm, res⟩ := sr
      cases res with
      | error e => simp [addSource, sourcePush, joinOpt_nil]
      | ok rates =>
        have := lookup_inner_mem nm rates symbols sym m hnd hmem
        simpa [addSource] using this
    rw [hstep, joinOpt_append]
    have hacc : acceptedRates (sr :: rest) sym =
        (sourcePush sym sr).toList ++ acceptedRates rest sym := by
      cases h : sourcePush sym sr <;>
        simp [acceptedRates, List.filterMap_cons, h]
    rw [hacc]

theorem lookup_buildBySymbol (symbols : List String) (sym : String)
    (hnd : symbols.Nodup) (hmem : sym ∈ symbols)
    (srs : List (String × Except String (List (String × Fp)))) :
    (buildBySymbol symbols srs).lookup sym =
      joinOpt none (acceptedRates srs sym) := by
  have h := lookup_buildBySymbol_aux symbols sym hnd hmem srs []
  simpa [buildBySymbol, List.lookup] using h

/-- Claim C3: in the order of the requested symbol list,
`aggregate_forex_rates` returns exactly one entry per symbol for which at
least one source reported a finite and strictly positive rate — the entry's
rate being the arithmetic mean of the accepted rates — and a symbol with no
accepted rate is simply absent from the output. -/
theorem aggregate_forex_rates_spec (symbols : List String)
    (source_results : List (String × Except String (List (String × Fp))))
    (hnd : symbols.Nodup) :
    aggregate_forex_rates symbols source_results =
      symbols.filterMap (fun symbol =>
        if (acceptedRates source_results symbol).isEmpty then none
        else
          some { symbol := symbol
                 name := currency_name symbol
                 foreign_per_usd :=
                   ((acceptedRates source_results symbol).map
                      (fun v => v.2)).sum /
                     ((acceptedRates source_results symbol).length : ℚ) }) := by
  unfold aggregate_forex_rates
  apply List.filterMap_congr
  intro sym hmem
  rw [lookup_buildBySymbol symbols sym hnd hmem source_results]
  cases hacc : acceptedRates source_results sym with
  | nil => simp [joinOpt]
  | cons v t => simp [joinOpt]

/-- Witness for C3: symbols EUR, JPY, GBP against `forexSrs` — GBP (only a
NaN rate) is absent, EUR keeps only the positive rate 2, JPY gets 150. -/
theorem aggregate_forex_rates_spec_witness :
    (["EUR", "JPY", "GBP"] : List String).Nodup ∧
    aggregate_forex_rates ["EUR", "JPY", "GBP"] forexSrs =
      (["EUR", "JPY", "GBP"] : List String).filterMap (fun symbol =>
        if (acceptedRates forexSrs symbol).isEmpty then none
        else
          some { symbol := symbol
                 name := currency_name symbol
                 foreign_per_usd :=
                   ((acceptedRates forexSrs symbol).map (fun v => v.2)).sum /
                     ((acceptedRates forexSrs symbol).length : ℚ) }) :=
  ⟨by decide, aggregate_forex_rates_spec ["EUR", "JPY", "GBP"] forexSrs
    (by decide)⟩

theorem pushRate_cons (k : String) (vs : List (String × ℚ))
    (rest : List (String × List (String × ℚ))) (symbol : String)
    (v : String × ℚ) :
    pushRate ((k, vs) :: rest) symbol v =
      if k = symbol then (k, vs ++ [v]) :: rest
      else (k, vs) :: pushRate rest symbol v := rfl

theorem pushRate_all_nonempty (symbol : String) (v : String × ℚ) :
    ∀ m : List (String × List (String × ℚ)),
      (∀ p ∈ m, p.2 ≠ []) → ∀ p ∈ pushRate m symbol v, p.2 ≠ [] := by
  intro m
  induction m with
  | nil =>
    intro _ p hp
    simp [pushRate] at hp
    subst hp
    simp
  | cons q rest ih =>
    obtain ⟨k, vs⟩ := q
    intro h p hp
    rw [pushRate_cons] at hp
    by_cases hk : k = symbol
    · rw [if_pos hk, List.mem_cons] at hp
      rcases hp with hp | hp
      · subst hp; simp
      · exact h p (List.mem_cons_of_mem _ hp)
    · rw [if_neg hk, List.mem_cons] at hp
      rcases hp with hp | hp
      · subst hp
        exact h (k, vs) (List.mem_cons_self _ _)
      · exact ih (fun p hp => h p (List.mem_cons_of_mem _ hp)) p hp

theorem addSymbolRate_all_nonempty (nm : String) (rates : List (String × Fp))
    (s : String) (m : List (String × List (String × ℚ)))
    (h : ∀ p ∈ m, p.2 ≠ []) :
    ∀ p ∈ addSymbolRate nm rates m s, p.2 ≠ [] := by
  unfold addSymbolRate
  cases hr : rates.lookup s with
  | none => exact h
  | some rate =>
    cases hn : normalize_foreign_per_usd rate with
    | none => simpa [hn] using h
    | some n =>
      simp only [hn]
      exact fun p hp => pushRate_all_nonempty s (nm, n) m h p hp

theorem inner_fold_all_nonempty (nm : String) (rates : List (String × Fp))
    (syms : List String) :
    ∀ m : List (String × List (String × ℚ)),
      (∀ p ∈ m, p.2 ≠ []) →
      ∀ p ∈ syms.foldl (addSymbolRate nm rates) m, p.2 ≠ [] := by
  induction syms with
  | nil => intro m h; exact h
  | cons s rest ih =>
    intro m h
    rw [List.foldl_cons]
    exact ih (addSymbolRate nm rates m s)
      (addSymbolRate_all_nonempty nm rates s m h)

theorem addSource_all_nonempty (symbols : List String)
    (sr : String × Except String (List (String × Fp)))
    (m : List (String × List (String × ℚ)))
    (h : ∀ p ∈ m, p.2 ≠ []) :
    ∀ p ∈ addSource symbols m sr, p.2 ≠ [] := by
  obtain ⟨nm, res⟩ := sr
  cases res with
  | error e => exact h
  | ok rates => exact inner_fold_all_nonempty nm rates symbols m h

theorem buildBySymbol_all_nonempty (symbols : List String)
    (source_results : List (String × Except String (List (String × Fp)))) :
    ∀ p ∈ buildBySymbol symbols source_results, p.2 ≠ [] := by
  have hgen : ∀ (srs : List (String × Except String (List (String × Fp))))
      (m : List (String × List (String × ℚ))),
      (∀ p ∈ m, p.2 ≠ []) →
      ∀ p ∈ srs.foldl (addSource symbols) m, p.2 ≠ [] := by
    intro srs
    induction srs with
    | nil => intro m h; exact h
    | cons sr rest ih =>
      intro m h
      rw [List.foldl_cons]
      exact ih (addSource symbols m sr) (addSource_all_nonempty symbols sr m h)
  exact hgen source_results [] (by intro p hp; cases hp)

theorem lookup_mem_aux {β : Type} (a : String) (b : β) :
    ∀ l : List (String × β), l.lookup a = some b → ∃ k, (k, b) ∈ l := by
  intro l
  induction l with
  | nil => intro h; cases h
  | cons q rest ih =>
    obtain ⟨k, vs⟩ := q
    intro h
    cases hb : (a == k) with
    | true =>
      simp [List.lookup, hb] at h
      exact ⟨k, by rw [h]; exact List.mem_cons_self _ _⟩
    | false =>
      simp [List.lookup, hb] at h
      obtain ⟨k2, hk2⟩ := ih h
      exact ⟨k2, List.mem_cons_of_mem _ hk2⟩

/-- Claim C10: every per-symbol list stored in the `by_symbol` map is
non-empty — an entry only ever comes into existence by a push — so the
branch of `aggregate_forex_rates` guarded by `values.is_empty()` can never
be taken. -/
theorem by_symbol_entries_nonempty (symbols : List String)
    (source_results : List (String × Except String (List (String × Fp))))
    (sym : String) (values : List (String × ℚ))
    (h : (buildBySymbol symbols source_results).lookup sym = some values) :
    values.isEmpty = false := by
  obtain ⟨k, hk⟩ := lookup_mem_aux sym values _ h
  have hne : values ≠ [] :=
    buildBySymbol_all_nonempty symbols source_results (k, values) hk
  cases values with
  | nil => exact absurd rfl hne
  | cons v t => rfl

/-- Witness for C10: the map built for symbol EUR from one reporting source
holds the non-empty list of that source's rate. -/
theorem by_symbol_entries_nonempty_witness :
    (buildBySymbol ["EUR"]
        [("s1", .ok [("EUR", Fp.finite 2)])]).lookup "EUR" =
      some [("s1", (2 : ℚ))] ∧
    ([("s1", (2 : ℚ))] : List (String × ℚ)).isEmpty = false :=
  ⟨by decide, by_symbol_entries_nonempty ["EUR"]
    [("s1", .ok [("EUR", Fp.finite 2)])] "EUR" [("s1", (2 : ℚ))] (by decide)⟩
